import Mathlib

/-
Verification of the caching HTTP/1.0 forward proxy (server.cpp).

The development shallowly embeds the functions of server.cpp over
List Char / String.  Machine-level concerns (sockets, select, signals)
are abstracted: network interactions are passed in as oracle functions
and recorded in an explicit trace of origin calls.  The LRU cache and
the httpHeader record are declared in httpUtils.h, which is not part of
the available sources; they are modelled from the specification.
-/

namespace http

/-- Modelled from the spec: the tri-state DateVerdict returned by the date
classifier, with the member names used by server.cpp (httpUtils.h is not
among the sources).  SUCCESS means the instant has not yet passed. -/
inductive retDateParse where
  | SUCCESS
  | TIME_UNIT_PASSED
  | FAILURE_TO_PARSE
deriving DecidableEq, Repr

/-- Modelled from the spec: the CacheEntry record (named httpHeader in the
code).  All fields are raw strings; body is the page content. -/
structure httpHeader where
  hostName : String
  filePath : String
  lastAccessTime : String
  lastModified : String
  expires : String
  body : String
deriving DecidableEq, Repr

/-- Modelled from the spec: the fixed-capacity LRU cache declared in
httpUtils.h.  Entries are kept most-recently-used first; size never
exceeds capacity; fetch and add promote their key; add evicts the
least-recently-used key (the last entry) when capacity is exceeded. -/
structure LRUCache where
  capacity : Nat
  entries : List (String × httpHeader)
deriving DecidableEq, Repr

/-- Modelled from the spec: fetch returns the entry and promotes its key to
most-recently-used, or signals a miss (none, rendering the runtime_error
thrown by the C++ implementation) with no side effect. -/
def LRUCache.fetch (cache : LRUCache) (key : String) : Option (httpHeader × LRUCache) :=
  match cache.entries.find? (fun p => p.1 == key) with
  | none => none
  | some p =>
    some (p.2, ⟨cache.capacity, (key, p.2) :: cache.entries.filter (fun q => q.1 != key)⟩)

/-- Modelled from the spec: add inserts or overwrites the entry for key,
promotes it to most-recently-used and, if the insertion pushes the size
past capacity, evicts the least-recently-used key.  add never fails. -/
def LRUCache.add (cache : LRUCache) (key : String) (entry : httpHeader) : LRUCache :=
  let es := (key, entry) :: cache.entries.filter (fun q => q.1 != key)
  ⟨cache.capacity, if cache.capacity < es.length then es.take cache.capacity else es⟩

/-- An empty cache of the given capacity (main constructs LRUCache(10)). -/
def emptyCache (cap : Nat) : LRUCache := ⟨cap, []⟩

end http

/- ------------------------------------------------------------------
Date utility: parseHTTPDate and checkIfTimePassed (server.cpp 27-71).
parseHTTPDate runs get_time with the layout percent-a, comma, space,
percent-d space percent-b space percent-Y space percent-H colon
percent-M colon percent-S in the C locale and converts the result with
timegm.  The stream extraction is rendered as follows: leading
whitespace is skipped by the sentry; a whitespace character of the
layout skips any run of input whitespace; name fields match the C
locale day and month names, full names before abbreviations; numeric
fields read up to the stated number of digits and range-check the
value; a failure anywhere makes the whole parse fail, which the C++
code surfaces as a runtime_error and checkIfTimePassed turns into
FAILURE_TO_PARSE.
------------------------------------------------------------------ -/

/-- The C-locale whitespace class used both by the stream sentry and by
the regex class backslash-s of std::regex over char. -/
def isSpaceChar (c : Char) : Bool :=
  c == ' ' || c == '\t' || c == '\n' || c == '\x0b' || c == '\x0c' || c == '\r'

/-- Skip a (possibly empty) run of whitespace. -/
def skipWS (s : List Char) : List Char := s.dropWhile isSpaceChar

/-- Match a literal character sequence at the head of the input. -/
def matchLit : List Char → List Char → Option (List Char)
  | [], s => some s
  | _ :: _, [] => none
  | c :: cs, d :: s => if c == d then matchLit cs s else none

/-- Match one of the given locale names at the head of the input,
returning its associated value; candidates are tried in order, so full
names listed before abbreviations give longest-match behaviour. -/
def matchName (names : List (List Char × Nat)) (s : List Char) : Option (Nat × List Char) :=
  match names with
  | [] => none
  | (n, v) :: rest =>
    if n.isPrefixOf s then some (v, s.drop n.length) else matchName rest s

/-- C locale weekday names, full names first (the parsed value is unused
by the conversion, matching tm_wday being ignored by timegm). -/
def weekdayNames : List (List Char × Nat) :=
  [("Sunday".data, 0), ("Monday".data, 1), ("Tuesday".data, 2), ("Wednesday".data, 3),
   ("Thursday".data, 4), ("Friday".data, 5), ("Saturday".data, 6),
   ("Sun".data, 0), ("Mon".data, 1), ("Tue".data, 2), ("Wed".data, 3),
   ("Thu".data, 4), ("Fri".data, 5), ("Sat".data, 6)]

/-- C locale month names, full names first, valued 1 to 12. -/
def monthNames : List (List Char × Nat) :=
  [("January".data, 1), ("February".data, 2), ("March".data, 3), ("April".data, 4),
   ("May".data, 5), ("June".data, 6), ("July".data, 7), ("August".data, 8),
   ("September".data, 9), ("October".data, 10), ("November".data, 11), ("December".data, 12),
   ("Jan".data, 1), ("Feb".data, 2), ("Mar".data, 3), ("Apr".data, 4),
   ("Jun".data, 6), ("Jul".data, 7), ("Aug".data, 8),
   ("Sep".data, 9), ("Oct".data, 10), ("Nov".data, 11), ("Dec".data, 12)]

/-- Take up to k leading decimal digits. -/
def takeDigits : Nat → List Char → List Char × List Char
  | 0, s => ([], s)
  | _ + 1, [] => ([], [])
  | k + 1, c :: s =>
    if c.isDigit then
      let p := takeDigits k s
      (c :: p.1, p.2)
    else ([], c :: s)

/-- Decimal value of a digit string. -/
def digitsToNat (ds : List Char) : Nat := ds.foldl (fun a c => a * 10 + (c.toNat - 48)) 0

/-- Read at most k digits (at least one) and range-check the value, as the
numeric extractor of time_get does. -/
def parseBoundedNum (k lo hi : Nat) (s : List Char) : Option (Nat × List Char) :=
  let p := takeDigits k s
  if p.1 = [] then none
  else
    let v := digitsToNat p.1
    if lo ≤ v ∧ v ≤ hi then some (v, p.2) else none

/-- Days since the Unix epoch of a civil date, the arithmetic performed by
timegm (era-based algorithm over truncating integer division). -/
def daysFromCivil (y m d : Int) : Int :=
  let yAdj := if m ≤ 2 then y - 1 else y
  let era := (if 0 ≤ yAdj then yAdj else yAdj - 399) / 400
  let yoe := yAdj - era * 400
  let doy := (153 * ((m + 9) % 12) + 2) / 5 + d - 1
  let doe := yoe * 365 + yoe / 4 - yoe / 100 + doy
  era * 146097 + doe - 719468

/-- Seconds since the Unix epoch computed by timegm from the parsed
fields; daylight saving is disabled, the conversion is pure UTC
arithmetic. -/
def timegmOf (year mon day hour minute sec : Nat) : Int :=
  daysFromCivil (year : Int) (mon : Int) (day : Int) * 86400
    + (hour : Int) * 3600 + (minute : Int) * 60 + (sec : Int)

/-- Rendering of parseHTTPDate (server.cpp 27-43) on a character list:
get_time over the fixed layout followed by timegm; none renders the
runtime_error thrown on a failed parse. -/
def parseHTTPDateChars (s0 : List Char) : Option Int := do
  let s := skipWS s0
  let (_, s) ← matchName weekdayNames s
  let s ← matchLit ",".data s
  let s := skipWS s
  let (day, s) ← parseBoundedNum 2 1 31 s
  let s := skipWS s
  let (mon, s) ← matchName monthNames s
  let s := skipWS s
  let (year, s) ← parseBoundedNum 4 0 9999 s
  let s := skipWS s
  let (hour, s) ← parseBoundedNum 2 0 23 s
  let s ← matchLit ":".data s
  let (minute, s) ← parseBoundedNum 2 0 59 s
  let s ← matchLit ":".data s
  let (sec, _) ← parseBoundedNum 2 0 60 s
  pure (timegmOf year mon day hour minute sec)

/-- parseHTTPDate (server.cpp 27-43). -/
def parseHTTPDate (httpDate : String) : Option Int := parseHTTPDateChars httpDate.data

/-- checkIfTimePassed (server.cpp 47-71), parameterised by the current
time that the C++ code reads from the wall clock. -/
def checkIfTimePassed (now : Int) (httpTime : String) : http.retDateParse :=
  match parseHTTPDate httpTime with
  | none => http.retDateParse.FAILURE_TO_PARSE
  | some checkTime =>
    if checkTime ≤ now then http.retDateParse.TIME_UNIT_PASSED
    else http.retDateParse.SUCCESS

/- ------------------------------------------------------------------
Message codec (server.cpp 75-154).
parseHTTPrequest runs regex_search with the ECMAScript pattern
caret GET ws-plus capture-nonws-plus ws-plus HTTP/1.0 CR LF Host:
ws-star capture-nonws-plus CR LF.  The caret anchors the match at the
start of the buffer; the whitespace classes are maximal-munch here
because every run of the class is followed by a literal outside the
class, so backtracking cannot change the outcome.  On failure the C++
function returns false and leaves the output parameters untouched; the
caller in main default-initialises them to empty strings.
------------------------------------------------------------------ -/

/-- Match a nonempty whitespace run (class backslash-s-plus). -/
def wsRun1 (s : List Char) : Option (List Char) :=
  match s with
  | [] => none
  | c :: t => if isSpaceChar c then some (t.dropWhile isSpaceChar) else none

/-- Match and capture a nonempty non-whitespace run (capture of
backslash-S-plus). -/
def nonWSrun1 (s : List Char) : Option (List Char × List Char) :=
  match s with
  | [] => none
  | c :: t =>
    if isSpaceChar c then none
    else some (c :: t.takeWhile (fun d => !isSpaceChar d), t.dropWhile (fun d => !isSpaceChar d))

/-- parseHTTPrequest (server.cpp 75-93), returning the C++ observable
state after the call: the success flag and the path and hostName output
parameters, which keep their initial empty value when the match fails. -/
def parseHTTPrequest (getRequest : String) : Bool × String × String :=
  let fail : Bool × String × String := (false, "", "")
  match matchLit "GET".data getRequest.data with
  | none => fail
  | some s =>
  match wsRun1 s with
  | none => fail
  | some s =>
  match nonWSrun1 s with
  | none => fail
  | some (path, s) =>
  match wsRun1 s with
  | none => fail
  | some s =>
  match matchLit "HTTP/1.0\r\nHost:".data s with
  | none => fail
  | some s =>
  match nonWSrun1 (skipWS s) with
  | none => fail
  | some (host, s) =>
  match matchLit "\r\n".data s with
  | none => fail
  | some _ => (true, String.mk path, String.mk host)

/- parseHTTPresponse (server.cpp 97-126) extracts header values with
regex_search over patterns of the shape LIT ws-star capture-dot-star
CR LF.  The rendering below implements ECMAScript leftmost search with
greedy backtracking of the ws-star run; the dot class excludes CR and
LF, so at a fixed start position the capture is forced. -/

/-- Match capture-dot-star followed by CR LF at the head of the input,
returning the capture. -/
def matchDotCRLF (t : List Char) : Option (List Char) :=
  let v := t.takeWhile (fun c => !(c == '\r' || c == '\n'))
  match t.drop v.length with
  | '\r' :: '\n' :: _ => some v
  | _ => none

/-- Try the whitespace-run lengths w, w-1, ..., 0 in order (greedy
backtracking of ws-star) and return the first capture that lets the
rest of the pattern match. -/
def tryWS (t : List Char) : Nat → Option (List Char)
  | 0 => matchDotCRLF t
  | w + 1 =>
    match matchDotCRLF (t.drop (w + 1)) with
    | some v => some v
    | none => tryWS t w

/-- Leftmost regex_search for the pattern LIT ws-star capture-dot-star
CR LF, returning the captured value of the first matching position. -/
def searchHeaderValue (lit : List Char) : List Char → Option (List Char)
  | [] => none
  | c :: t =>
    match (match matchLit lit (c :: t) with
           | none => none
           | some rest => tryWS rest (rest.takeWhile isSpaceChar).length) with
    | some v => some v
    | none => searchHeaderValue lit t

/-- parseHTTPresponse (server.cpp 97-126), returning the caller-visible
values of the three output parameters after the call.  date and expires
are reference parameters and receive the captured value when their
pattern matches; the lastModified parameter is declared BY VALUE in the
source, so the captured Last-Modified value is stored into a local copy
and the caller keeps the value it passed in. -/
def parseHTTPresponse (httpResponse date lastModified expires : String) :
    String × String × String :=
  let date2 := match searchHeaderValue "Date:".data httpResponse.data with
               | some v => String.mk v
               | none => date
  let expires2 := match searchHeaderValue "Expires:".data httpResponse.data with
                  | some v => String.mk v
                  | none => expires
  (date2, lastModified, expires2)

/-- The blank-line separator searched by parseHTTPBody. -/
def sepL : List Char := ['\r', '\n', '\r', '\n']

/-- std::string find of the separator: index of its first occurrence. -/
def findSub : List Char → Option Nat
  | [] => none
  | c :: t =>
    if sepL.isPrefixOf (c :: t) then some 0 else (findSub t).map (· + 1)

/-- std::string substr(pos): the suffix from pos, or none when pos
exceeds the length, rendering the out_of_range exception. -/
def substrFrom (s : List Char) (pos : Nat) : Option (List Char) :=
  if pos ≤ s.length then some (s.drop pos) else none

/-- parseHTTPBody (server.cpp 131-154) on a character list: find the
first separator, return everything after it; no separator, or the
caught out_of_range, yields the empty list. -/
def parseHTTPBodyL (s : List Char) : List Char :=
  match findSub s with
  | none => []
  | some p =>
    match substrFrom s (p + 4) with
    | some b => b
    | none => []

/-- parseHTTPBody (server.cpp 131-154). -/
def parseHTTPBody (httpResponse : String) : String := String.mk (parseHTTPBodyL httpResponse.data)

/-- The conditional request text built by sendIfModifiedSinceRequest
(server.cpp 219-251): snprintf formats into a 256-byte buffer, so at
most 255 characters are kept. -/
def sendIfModifiedSinceRequestString (date : String) (header : http.httpHeader) : String :=
  String.mk (("GET " ++ header.filePath ++ " HTTP/1.0\r\nHost: " ++ header.hostName ++
    "\r\n\r\nIf-Modified-Since: " ++ date ++ "\r\n\r\n").data.take 255)

/- ------------------------------------------------------------------
Freshness validator and per-request flow (server.cpp 256-368, 500-584).
The network is abstracted: an oracle gives the bytes received for the
unconditional fetch of main (none rendering a failed connect) and for
the conditional request of sendIfModifiedSinceRequest (the empty string
rendering a failed connect, a failed send or an empty reply, which the
C++ code folds into one empty-response check).  Every attempted origin
interaction is recorded in a trace.
------------------------------------------------------------------ -/

/-- One attempted interaction with an origin server. -/
inductive OriginCall where
  | unconditional (hostName filePath : String)
  | conditional (date hostName filePath : String)
deriving DecidableEq, Repr

/-- The priority cascade of handleCache (server.cpp 277-323): the while
loop over priorities 1 to 3.  Note that the C++ code evaluates the
cascade on the fields of its header ARGUMENT (the freshly fetched
page), not on the fields of the entry found in the cache. -/
def selectRequestDate (now : Int) (header : http.httpHeader) : Option String :=
  if checkIfTimePassed now header.expires = http.retDateParse.SUCCESS then
    some header.expires
  else if ¬ checkIfTimePassed now header.lastModified = http.retDateParse.FAILURE_TO_PARSE then
    some header.lastModified
  else if ¬ checkIfTimePassed now header.lastAccessTime = http.retDateParse.FAILURE_TO_PARSE then
    some header.lastAccessTime
  else
    none

/-- The updated entry built by handleCache (server.cpp 343-361) from the
revalidation response: hostName and filePath are carried over from the
fetched entry, the three date fields come from the parseHTTPresponse
output parameters that were default-initialised to empty strings (so
lastModified stays empty, see parseHTTPresponse), and the body is the
parsed body of the response. -/
def updatedHeaderOf (fetchedHeader : http.httpHeader) (resp : String) : http.httpHeader :=
  ⟨fetchedHeader.hostName, fetchedHeader.filePath,
   (parseHTTPresponse resp "" "" "").1,
   (parseHTTPresponse resp "" "" "").2.1,
   (parseHTTPresponse resp "" "" "").2.2,
   parseHTTPBody resp⟩

/-- handleCache (server.cpp 256-368).  net gives the bytes obtained by
sendIfModifiedSinceRequest for a given date and header; now is the wall
clock read inside checkIfTimePassed.  Returns the header served to the
client, the resulting cache, and the trace of conditional requests
attempted (the key is hostName concatenated with filePath). -/
def handleCache (now : Int) (net : String → http.httpHeader → String)
    (header : http.httpHeader) (cache : http.LRUCache) :
    http.httpHeader × http.LRUCache × List OriginCall :=
  match cache.fetch (header.hostName ++ header.filePath) with
  | none =>
    (header, cache.add (header.hostName ++ header.filePath) header, [])
  | some (fetchedHeader, cache2) =>
    match selectRequestDate now header with
    | none => (fetchedHeader, cache2, [])
    | some requestDate =>
      if net requestDate fetchedHeader = "" then
        (fetchedHeader, cache2,
         [OriginCall.conditional requestDate fetchedHeader.hostName fetchedHeader.filePath])
      else if parseHTTPBody (net requestDate fetchedHeader) = "" then
        (fetchedHeader, cache2,
         [OriginCall.conditional requestDate fetchedHeader.hostName fetchedHeader.filePath])
      else
        (updatedHeaderOf fetchedHeader (net requestDate fetchedHeader),
         cache2.add (header.hostName ++ header.filePath)
           (updatedHeaderOf fetchedHeader (net requestDate fetchedHeader)),
         [OriginCall.conditional requestDate fetchedHeader.hostName fetchedHeader.filePath])

/-- The header main builds from the unconditional fetch (server.cpp
516-568): connect to the host, send the plain GET, read the reply,
extract the metadata and the body.  none renders the two abort paths of
main (connect failure, empty parsed body), both of which close the
client connection without a response. -/
def freshHeader (unet : String → String → Option String) (host path : String) :
    Option http.httpHeader :=
  match unet host path with
  | none => none
  | some responseBuffer =>
    if parseHTTPBody responseBuffer = "" then none
    else
      some ⟨host, path,
            (parseHTTPresponse responseBuffer "" "" "").1,
            (parseHTTPresponse responseBuffer "" "" "").2.1,
            (parseHTTPresponse responseBuffer "" "" "").2.2,
            parseHTTPBody responseBuffer⟩

/-- One iteration of the client-serving part of the main loop
(server.cpp 500-584) for one request buffer.  Main calls
parseHTTPrequest but IGNORES its return value, then always attempts the
unconditional origin fetch with whatever path and host the parse left
behind, and only then consults the cache through handleCache.  Returns
the body served to the client (none when the connection is closed
without a response), the resulting cache, and the trace of attempted
origin calls in order. -/
def processRequest (now : Int) (unet : String → String → Option String)
    (cnet : String → http.httpHeader → String) (req : String) (cache : http.LRUCache) :
    Option String × http.LRUCache × List OriginCall :=
  match freshHeader unet (parseHTTPrequest req).2.2 (parseHTTPrequest req).2.1 with
  | none =>
    (none, cache,
     [OriginCall.unconditional (parseHTTPrequest req).2.2 (parseHTTPrequest req).2.1])
  | some header =>
    (some (handleCache now cnet header cache).1.body,
     (handleCache now cnet header cache).2.1,
     OriginCall.unconditional (parseHTTPrequest req).2.2 (parseHTTPrequest req).2.1
       :: (handleCache now cnet header cache).2.2)

/-- A cache operation, for stating properties over arbitrary sequences
of fetch and add calls. -/
inductive CacheOp where
  | fetch (key : String)
  | add (key : String) (entry : http.httpHeader)
deriving Repr

/-- Run one cache operation (a missed fetch leaves the cache unchanged). -/
def runOp (cache : http.LRUCache) : CacheOp → http.LRUCache
  | CacheOp.fetch k =>
    match cache.fetch k with
    | none => cache
    | some (_, cache2) => cache2
  | CacheOp.add k v => cache.add k v

/-- Run a sequence of cache operations. -/
def runOps (cache : http.LRUCache) (ops : List CacheOp) : http.LRUCache :=
  ops.foldl runOp cache

/- ------------------------------------------------------------------
Helper lemmas about handleCache.
------------------------------------------------------------------ -/

lemma handleCache_miss (now : Int) (net : String → http.httpHeader → String)
    (header : http.httpHeader) (cache : http.LRUCache)
    (hf : cache.fetch (header.hostName ++ header.filePath) = none) :
    handleCache now net header cache =
      (header, cache.add (header.hostName ++ header.filePath) header, []) := by
  unfold handleCache
  rw [hf]

lemma handleCache_hit_noDate (now : Int) (net : String → http.httpHeader → String)
    (header : http.httpHeader) (cache : http.LRUCache) (f : http.httpHeader)
    (c2 : http.LRUCache)
    (hf : cache.fetch (header.hostName ++ header.filePath) = some (f, c2))
    (hs : selectRequestDate now header = none) :
    handleCache now net header cache = (f, c2, []) := by
  unfold handleCache
  rw [hf, hs]

lemma handleCache_hit_trace (now : Int) (net : String → http.httpHeader → String)
    (header : http.httpHeader) (cache : http.LRUCache) (f : http.httpHeader)
    (c2 : http.LRUCache) (d : String)
    (hf : cache.fetch (header.hostName ++ header.filePath) = some (f, c2))
    (hs : selectRequestDate now header = some d) :
    (handleCache now net header cache).2.2 =
      [OriginCall.conditional d f.hostName f.filePath] := by
  unfold handleCache
  rw [hf, hs]
  by_cases h1 : net d f = ""
  · simp [h1]
  · by_cases h2 : parseHTTPBody (net d f) = "" <;> simp [h1, h2]

lemma handleCache_hit_fail (now : Int) (net : String → http.httpHeader → String)
    (header : http.httpHeader) (cache : http.LRUCache) (f : http.httpHeader)
    (c2 : http.LRUCache) (d : String)
    (hf : cache.fetch (header.hostName ++ header.filePath) = some (f, c2))
    (hs : selectRequestDate now header = some d)
    (hfail : net d f = "" ∨ parseHTTPBody (net d f) = "") :
    handleCache now net header cache =
      (f, c2, [OriginCall.conditional d f.hostName f.filePath]) := by
  unfold handleCache
  rw [hf, hs]
  rcases hfail with h | h
  · simp [h]
  · by_cases h1 : net d f = "" <;> simp [h1, h]

/- ------------------------------------------------------------------
C7: behaviour of checkIfTimePassed.
------------------------------------------------------------------ -/

/-- C7: for every input string and a fixed current time,
checkIfTimePassed returns FAILURE_TO_PARSE exactly when the text does
not parse under the fixed date layout (no exception escapes: the
function is total), TIME_UNIT_PASSED when the parsed instant is at or
before now, SUCCESS when it is strictly after now, and repeated calls
with the same input and the same now return the same verdict. -/
theorem C7_checkIfTimePassed : ∀ (s : String) (now : Int),
    (parseHTTPDate s = none →
      checkIfTimePassed now s = http.retDateParse.FAILURE_TO_PARSE) ∧
    (∀ t : Int, parseHTTPDate s = some t → t ≤ now →
      checkIfTimePassed now s = http.retDateParse.TIME_UNIT_PASSED) ∧
    (∀ t : Int, parseHTTPDate s = some t → now < t →
      checkIfTimePassed now s = http.retDateParse.SUCCESS) ∧
    checkIfTimePassed now s = checkIfTimePassed now s := by
  intro s now
  refine ⟨?_, ?_, ?_, rfl⟩
  · intro h
    unfold checkIfTimePassed
    rw [h]
  · intro t h hle
    unfold checkIfTimePassed
    rw [h]
    simp [hle]
  · intro t h hlt
    unfold checkIfTimePassed
    rw [h]
    simp [not_le.mpr hlt]

/-- Witness for C7 at concrete inputs: the RFC 1123 example date parses
to the epoch second 784111777, which is strictly after now = 0, and the
theorem then yields SUCCESS; a malformed text yields FAILURE_TO_PARSE. -/
theorem C7_checkIfTimePassed_witness :
    checkIfTimePassed 0 "Sun, 06 Nov 1994 08:49:37" = http.retDateParse.SUCCESS ∧
    checkIfTimePassed 0 "not a date" = http.retDateParse.FAILURE_TO_PARSE :=
  ⟨(C7_checkIfTimePassed "Sun, 06 Nov 1994 08:49:37" 0).2.2.1 784111777 (by decide) (by decide),
   (C7_checkIfTimePassed "not a date" 0).1 (by decide)⟩

/- ------------------------------------------------------------------
C3: parseHTTPresponse loses the Last-Modified value (code bug).
------------------------------------------------------------------ -/

/-- C3 (code bug evaluated at the failing input): the response contains
the line Last-Modified: X and the search for that pattern extracts the
value X, yet the caller-visible lastModified output of parseHTTPresponse
is the unchanged empty input, because the source declares that one
parameter by value instead of by reference; the absent Date and Expires
lines leave their outputs at the empty default. -/
theorem C3_lastModified_lost :
    searchHeaderValue "Last-Modified:".data
        "HTTP/1.0 200 OK\r\nLast-Modified: X\r\n\r\nbody".data = some "X".data ∧
    parseHTTPresponse "HTTP/1.0 200 OK\r\nLast-Modified: X\r\n\r\nbody" "" "" "" =
      ("", "", "") := by
  constructor
  · decide
  · decide

/- ------------------------------------------------------------------
C6: main ignores the result of parseHTTPrequest (code bug).
------------------------------------------------------------------ -/

/-- C6 (code bug evaluated at the failing input): a POST request does
not match the supported shape and parseHTTPrequest signals the failure
(false) leaving both outputs empty, yet main ignores the returned flag
and proceeds: it attempts an unconditional origin fetch with the empty
host and path instead of abandoning the connection without contacting
any origin. -/
theorem C6_parse_failure_ignored :
    parseHTTPrequest "POST /x HTTP/1.0\r\nHost: h\r\n\r\n" = (false, "", "") ∧
    (processRequest 0 (fun _ _ => none) (fun _ _ => "")
        "POST /x HTTP/1.0\r\nHost: h\r\n\r\n" (http.emptyCache 10)).2.2 =
      [OriginCall.unconditional "" ""] := by
  constructor
  · decide
  · decide

/- ------------------------------------------------------------------
C1: which fields feed the priority cascade on a cache hit.
------------------------------------------------------------------ -/

/-- C1 (counterexample): a cache hit whose stored entry has a parseable
Last-Modified date, while the incoming freshly fetched header has no
parseable date field at all.  The claim says the revalidation timestamp
is selected from the stored fields of the hit entry, so a conditional
request carrying that Last-Modified value would have to be attempted;
the code instead runs the cascade on the fields of its header argument,
selects nothing, returns the cached entry and attempts no network call
(empty trace). -/
theorem C1_counterexample :
    checkIfTimePassed 0
        (http.httpHeader.lastModified ⟨"h", "/p", "", "Sun, 06 Nov 1994 08:49:37", "", "B"⟩) ≠
      http.retDateParse.FAILURE_TO_PARSE ∧
    (⟨10, [("h/p", ⟨"h", "/p", "", "Sun, 06 Nov 1994 08:49:37", "", "B"⟩)]⟩ :
        http.LRUCache).fetch ("h" ++ "/p") =
      some (⟨"h", "/p", "", "Sun, 06 Nov 1994 08:49:37", "", "B"⟩,
        ⟨10, [("h/p", ⟨"h", "/p", "", "Sun, 06 Nov 1994 08:49:37", "", "B"⟩)]⟩) ∧
    handleCache 0 (fun _ _ => "") ⟨"h", "/p", "", "", "", "B2"⟩
        ⟨10, [("h/p", ⟨"h", "/p", "", "Sun, 06 Nov 1994 08:49:37", "", "B"⟩)]⟩ =
      (⟨"h", "/p", "", "Sun, 06 Nov 1994 08:49:37", "", "B"⟩,
       ⟨10, [("h/p", ⟨"h", "/p", "", "Sun, 06 Nov 1994 08:49:37", "", "B"⟩)]⟩, []) := by
  refine ⟨by decide, by decide, by decide⟩

/-- C1 (amended): on a cache hit the revalidation timestamp is selected
by the fixed priority cascade from the fields of the INCOMING freshly
fetched header (the argument of handleCache), not from the stored
fields of the hit entry: the expires field if it classifies as not yet
passed, else the lastModified field if it parses, else the
lastAccessTime field if it parses; if none is selected the cached entry
is returned unchanged and no network call is attempted, and if one is
selected exactly one conditional call carrying it is attempted. -/
theorem C1_cascade_uses_argument_header :
    ∀ (now : Int) (net : String → http.httpHeader → String) (header : http.httpHeader)
      (cache : http.LRUCache) (f : http.httpHeader) (c2 : http.LRUCache),
    cache.fetch (header.hostName ++ header.filePath) = some (f, c2) →
    (selectRequestDate now header =
      (if checkIfTimePassed now header.expires = http.retDateParse.SUCCESS then
         some header.expires
       else if ¬ checkIfTimePassed now header.lastModified = http.retDateParse.FAILURE_TO_PARSE then
         some header.lastModified
       else if ¬ checkIfTimePassed now header.lastAccessTime = http.retDateParse.FAILURE_TO_PARSE then
         some header.lastAccessTime
       else none)) ∧
    (selectRequestDate now header = none →
      handleCache now net header cache = (f, c2, [])) ∧
    (∀ d, selectRequestDate now header = some d →
      (handleCache now net header cache).2.2 =
        [OriginCall.conditional d f.hostName f.filePath]) := by
  intro now net header cache f c2 hf
  refine ⟨rfl, ?_, ?_⟩
  · intro hs
    exact handleCache_hit_noDate now net header cache f c2 hf hs
  · intro d hs
    exact handleCache_hit_trace now net header cache f c2 d hf hs

/-- Witness for C1 (amended) at a concrete hit with no selectable date:
the cached entry comes back unchanged with an empty trace. -/
theorem C1_cascade_uses_argument_header_witness :
    handleCache 0 (fun _ _ => "") ⟨"h", "/p", "", "", "", "B2"⟩
        ⟨10, [("h/p", ⟨"h", "/p", "", "", "", "B"⟩)]⟩ =
      (⟨"h", "/p", "", "", "", "B"⟩, ⟨10, [("h/p", ⟨"h", "/p", "", "", "", "B"⟩)]⟩, []) :=
  (C1_cascade_uses_argument_header 0 (fun _ _ => "") ⟨"h", "/p", "", "", "", "B2"⟩
    ⟨10, [("h/p", ⟨"h", "/p", "", "", "", "B"⟩)]⟩ ⟨"h", "/p", "", "", "", "B"⟩
    ⟨10, [("h/p", ⟨"h", "/p", "", "", "", "B"⟩)]⟩ (by decide)).2.1 (by decide)

/- ------------------------------------------------------------------
C2: failed revalidation serves the cached entry and does not update
the cache.
------------------------------------------------------------------ -/

/-- C2: whenever revalidation of a cache hit fails, either because the
conditional request yields no response bytes or because the parsed body
of the response is empty, handleCache returns the previously cached
entry unchanged and the resulting cache is exactly the one produced by
the lookup itself; add is never reached on these paths. -/
theorem C2_failed_revalidation_serves_cached :
    ∀ (now : Int) (net : String → http.httpHeader → String) (header : http.httpHeader)
      (cache : http.LRUCache) (f : http.httpHeader) (c2 : http.LRUCache) (d : String),
    cache.fetch (header.hostName ++ header.filePath) = some (f, c2) →
    selectRequestDate now header = some d →
    (net d f = "" ∨ parseHTTPBody (net d f) = "") →
    handleCache now net header cache =
      (f, c2, [OriginCall.conditional d f.hostName f.filePath]) := by
  intro now net header cache f c2 d hf hs hfail
  exact handleCache_hit_fail now net header cache f c2 d hf hs hfail

/-- Witness for C2 at a concrete hit whose conditional request yields no
bytes: the incoming header has a parseable Last-Modified, so the
cascade selects it, the oracle replies with the empty string, and the
cached entry is served with the cache left as the lookup produced it. -/
theorem C2_failed_revalidation_serves_cached_witness :
    handleCache 0 (fun _ _ => "") ⟨"h", "/p", "", "Sun, 06 Nov 1994 08:49:37", "", "B2"⟩
        ⟨10, [("h/p", ⟨"h", "/p", "", "", "", "B"⟩)]⟩ =
      (⟨"h", "/p", "", "", "", "B"⟩, ⟨10, [("h/p", ⟨"h", "/p", "", "", "", "B"⟩)]⟩,
       [OriginCall.conditional "Sun, 06 Nov 1994 08:49:37" "h" "/p"]) :=
  C2_failed_revalidation_serves_cached 0 (fun _ _ => "")
    ⟨"h", "/p", "", "Sun, 06 Nov 1994 08:49:37", "", "B2"⟩
    ⟨10, [("h/p", ⟨"h", "/p", "", "", "", "B"⟩)]⟩ ⟨"h", "/p", "", "", "", "B"⟩
    ⟨10, [("h/p", ⟨"h", "/p", "", "", "", "B"⟩)]⟩ "Sun, 06 Nov 1994 08:49:37"
    (by decide) (by decide) (Or.inl rfl)

/- ------------------------------------------------------------------
C5: the unconditional fetch is performed on every request.
------------------------------------------------------------------ -/

lemma freshHeader_fields (unet : String → String → Option String) (host path : String)
    (hdr : http.httpHeader) (h : freshHeader unet host path = some hdr) :
    hdr.hostName = host ∧ hdr.filePath = path := by
  unfold freshHeader at h
  cases hu : unet host path with
  | none => rw [hu] at h; cases h
  | some resp =>
    rw [hu] at h
    by_cases hb : parseHTTPBody resp = ""
    · simp [hb] at h
    · simp [hb] at h
      cases h
      exact ⟨rfl, rfl⟩

/-- C5 (counterexample): a request whose cache key hits the cache, yet
the trace of origin calls starts with the unconditional full GET fetch;
the code issues the unconditional fetch on every request, before the
cache is even consulted, so it is not performed only on a miss. -/
theorem C5_counterexample :
    (⟨10, [("h/p", ⟨"h", "/p", "", "", "", "B"⟩)]⟩ : http.LRUCache).fetch ("h" ++ "/p") ≠
      none ∧
    (processRequest 0 (fun _ _ => some "HTTP/1.0 200 OK\r\n\r\nBODY") (fun _ _ => "")
        "GET /p HTTP/1.0\r\nHost: h\r\n\r\n"
        ⟨10, [("h/p", ⟨"h", "/p", "", "", "", "B"⟩)]⟩).2.2 =
      [OriginCall.unconditional "h" "/p"] := by
  refine ⟨by decide, by decide⟩

/-- C5 (amended): every request, hit or miss, first attempts the
unconditional full GET fetch; on a hit at most one additional origin
request is attempted, the conditional one carrying the date that the
cascade selects from the freshly fetched header; on a miss no further
origin request is attempted. -/
theorem C5_unconditional_on_every_request :
    ∀ (now : Int) (unet : String → String → Option String)
      (cnet : String → http.httpHeader → String) (req : String) (cache : http.LRUCache),
    ∃ rest,
      (processRequest now unet cnet req cache).2.2 =
        OriginCall.unconditional (parseHTTPrequest req).2.2 (parseHTTPrequest req).2.1 :: rest ∧
      rest.length ≤ 1 ∧
      (cache.fetch ((parseHTTPrequest req).2.2 ++ (parseHTTPrequest req).2.1) = none →
        rest = []) ∧
      (∀ call ∈ rest, ∃ d f c2 hdr,
        freshHeader unet (parseHTTPrequest req).2.2 (parseHTTPrequest req).2.1 = some hdr ∧
        cache.fetch ((parseHTTPrequest req).2.2 ++ (parseHTTPrequest req).2.1) =
          some (f, c2) ∧
        selectRequestDate now hdr = some d ∧
        call = OriginCall.conditional d f.hostName f.filePath) := by
  intro now unet cnet req cache
  cases hfh : freshHeader unet (parseHTTPrequest req).2.2 (parseHTTPrequest req).2.1 with
  | none =>
    refine ⟨[], ?_, by simp, fun _ => rfl, by simp⟩
    unfold processRequest
    rw [hfh]
  | some hdr =>
    obtain ⟨hh, hp⟩ := freshHeader_fields _ _ _ _ hfh
    have hkey : hdr.hostName ++ hdr.filePath =
        (parseHTTPrequest req).2.2 ++ (parseHTTPrequest req).2.1 := by rw [hh, hp]
    have hpr : (processRequest now unet cnet req cache).2.2 =
        OriginCall.unconditional (parseHTTPrequest req).2.2 (parseHTTPrequest req).2.1
          :: (handleCache now cnet hdr cache).2.2 := by
      unfold processRequest
      rw [hfh]
    cases hf : cache.fetch (hdr.hostName ++ hdr.filePath) with
    | none =>
      refine ⟨[], ?_, by simp, fun _ => rfl, by simp⟩
      rw [hpr, handleCache_miss now cnet hdr cache hf]
    | some p =>
      obtain ⟨f, c2⟩ := p
      cases hs : selectRequestDate now hdr with
      | none =>
        refine ⟨[], ?_, by simp, fun _ => rfl, by simp⟩
        rw [hpr, handleCache_hit_noDate now cnet hdr cache f c2 hf hs]
      | some d =>
        refine ⟨[OriginCall.conditional d f.hostName f.filePath], ?_, by simp, ?_, ?_⟩
        · rw [hpr, handleCache_hit_trace now cnet hdr cache f c2 d hf hs]
        · intro hmiss
          rw [hkey, hmiss] at hf
          cases hf
        · intro call hc
          have hceq : call = OriginCall.conditional d f.hostName f.filePath := by
            simpa using hc
          subst hceq
          refine ⟨d, f, c2, hdr, rfl, ?_, hs, rfl⟩
          rw [← hkey]
          exact hf

/-- Witness for C5 (amended) at a concrete miss: the trace is the
unconditional call alone. -/
theorem C5_unconditional_on_every_request_witness :
    ∃ rest,
      (processRequest 0 (fun _ _ => none) (fun _ _ => "") "x" (http.emptyCache 10)).2.2 =
        OriginCall.unconditional (parseHTTPrequest "x").2.2 (parseHTTPrequest "x").2.1 :: rest ∧
      rest.length ≤ 1 ∧
      ((http.emptyCache 10).fetch
          ((parseHTTPrequest "x").2.2 ++ (parseHTTPrequest "x").2.1) = none →
        rest = []) ∧
      (∀ call ∈ rest, ∃ d f c2 hdr,
        freshHeader (fun _ _ => none) (parseHTTPrequest "x").2.2 (parseHTTPrequest "x").2.1 =
          some hdr ∧
        (http.emptyCache 10).fetch
            ((parseHTTPrequest "x").2.2 ++ (parseHTTPrequest "x").2.1) = some (f, c2) ∧
        selectRequestDate 0 hdr = some d ∧
        call = OriginCall.conditional d f.hostName f.filePath) :=
  C5_unconditional_on_every_request 0 (fun _ _ => none) (fun _ _ => "") "x"
    (http.emptyCache 10)

/- ------------------------------------------------------------------
C4: LRU cache invariants (LRUCache is modelled from the spec, see the
definitions above; httpUtils.h is not among the sources).
------------------------------------------------------------------ -/

lemma filter_length_lt {α : Type*} (p : α → Bool) (l : List α) (x : α) (hx : x ∈ l)
    (hpx : p x = false) : (l.filter p).length < l.length := by
  induction l with
  | nil => cases hx
  | cons a t ih =>
    rcases List.mem_cons.mp hx with rfl | hx2
    · rw [List.filter_cons_of_neg]
      · exact Nat.lt_succ_of_le (List.length_filter_le p t)
      · simp [hpx]
    · cases hpa : p a
      · rw [List.filter_cons_of_neg]
        · exact Nat.lt_succ_of_lt (ih hx2)
        · simp [hpa]
      · rw [List.filter_cons_of_pos]
        · simpa using Nat.succ_lt_succ (ih hx2)
        · simp [hpa]

lemma LRUCache_add_entries (c : http.LRUCache) (k : String) (v : http.httpHeader) :
    (c.add k v).entries =
      ((k, v) :: c.entries.filter (fun q => q.1 != k)).take c.capacity := by
  unfold http.LRUCache.add
  by_cases h : c.capacity < ((k, v) :: c.entries.filter (fun q => q.1 != k)).length
  · simp [h]
  · simp only [h, if_false]
    rw [List.take_of_length_le (Nat.le_of_not_lt h)]

lemma LRUCache_add_capacity (c : http.LRUCache) (k : String) (v : http.httpHeader) :
    (c.add k v).capacity = c.capacity := by
  unfold http.LRUCache.add
  by_cases h : c.capacity < ((k, v) :: c.entries.filter (fun q => q.1 != k)).length <;>
    simp [h]

lemma LRUCache_add_length (c : http.LRUCache) (k : String) (v : http.httpHeader) :
    (c.add k v).entries.length ≤ c.capacity := by
  rw [LRUCache_add_entries]
  simp [List.length_take]

lemma LRUCache_fetch_some (c : http.LRUCache) (key : String) (e : http.httpHeader)
    (c2 : http.LRUCache) (h : c.fetch key = some (e, c2)) :
    c2.capacity = c.capacity ∧ c2.entries.length ≤ c.entries.length ∧
    (c2.entries.map Prod.fst).head? = some key := by
  unfold http.LRUCache.fetch at h
  cases hf : c.entries.find? (fun p => p.1 == key) with
  | none => rw [hf] at h; cases h
  | some p =>
    rw [hf] at h
    cases h
    refine ⟨rfl, ?_, by simp⟩
    have hmem := List.mem_of_find?_eq_some hf
    have hpk := List.find?_some hf
    have hlt := filter_length_lt (fun q => q.1 != key) c.entries p hmem (by simp [bne, hpk])
    simpa using Nat.succ_le_of_lt hlt

lemma runOp_capacity (c : http.LRUCache) (op : CacheOp) :
    (runOp c op).capacity = c.capacity := by
  cases op with
  | fetch k =>
    simp only [runOp]
    cases hf : c.fetch k with
    | none => rfl
    | some p =>
      obtain ⟨e, c2⟩ := p
      exact (LRUCache_fetch_some c k e c2 hf).1
  | add k v => exact LRUCache_add_capacity c k v

lemma runOp_length (c : http.LRUCache) (op : CacheOp) (h : c.entries.length ≤ c.capacity) :
    (runOp c op).entries.length ≤ c.capacity := by
  cases op with
  | fetch k =>
    simp only [runOp]
    cases hf : c.fetch k with
    | none => exact h
    | some p =>
      obtain ⟨e, c2⟩ := p
      exact le_trans (LRUCache_fetch_some c k e c2 hf).2.1 h
  | add k v => exact LRUCache_add_length c k v

lemma runOps_capacity (ops : List CacheOp) : ∀ c : http.LRUCache,
    (runOps c ops).capacity = c.capacity := by
  induction ops with
  | nil => intro c; rfl
  | cons op t ih =>
    intro c
    show (runOps (runOp c op) t).capacity = c.capacity
    rw [ih (runOp c op), runOp_capacity]

lemma runOps_length (ops : List CacheOp) : ∀ c : http.LRUCache,
    c.entries.length ≤ c.capacity → (runOps c ops).entries.length ≤ c.capacity := by
  induction ops with
  | nil => intro c h; exact h
  | cons op t ih =>
    intro c h
    show (runOps (runOp c op) t).entries.length ≤ c.capacity
    rw [← runOp_capacity c op]
    exact ih (runOp c op) (by rw [runOp_capacity]; exact runOp_length c op h)

lemma take_cons_take {α : Type*} (x : α) (l : List α) (n : Nat) :
    (x :: l.take n).take n = (x :: l).take n := by
  cases n with
  | zero => rfl
  | succ m =>
    rw [List.take_succ_cons, List.take_succ_cons, List.take_take]
    rw [Nat.min_eq_left (Nat.le_succ m)]

lemma LRUCache_add_mru (c : http.LRUCache) (k : String) (v : http.httpHeader)
    (hcap : c.capacity = 10) :
    (((c.add k v).entries.map Prod.fst).head?) = some k := by
  rw [LRUCache_add_entries, hcap]
  rw [show (10 : Nat) = 9 + 1 from rfl, List.take_succ_cons]
  simp

lemma LRUCache_add_evicts (c : http.LRUCache) (k : String) (v : http.httpHeader)
    (hcap : c.capacity = 10) (hlen : c.entries.length = 10)
    (hfresh : k ∉ c.entries.map Prod.fst) :
    (c.add k v).entries.map Prod.fst = k :: (c.entries.map Prod.fst).dropLast := by
  have hfil : c.entries.filter (fun q => q.1 != k) = c.entries := by
    rw [List.filter_eq_self]
    intro q hq
    have hqk : q.1 ≠ k := by
      intro he
      exact hfresh (he ▸ List.mem_map_of_mem Prod.fst hq)
    simpa using hqk
  rw [LRUCache_add_entries, hcap, hfil]
  rw [show (10 : Nat) = 9 + 1 from rfl, List.take_succ_cons, List.map_cons]
  congr 1
  rw [List.dropLast_eq_take, List.length_map, hlen, List.map_take]

lemma runOps_adds (v : http.httpHeader) (ks : List String) (hnd : ks.Nodup) :
    runOps (http.emptyCache 10) (ks.map (fun k => CacheOp.add k v)) =
      ⟨10, (ks.reverse.map (fun k => (k, v))).take 10⟩ := by
  induction ks using List.reverseRecOn with
  | nil => rfl
  | append_singleton l a ih =>
    have hnd2 : l.Nodup := (List.nodup_append.mp hnd).1
    have hfresh : a ∉ l := by
      intro hm
      exact (List.nodup_append.mp hnd).2.2 hm (List.mem_singleton_self a)
    rw [List.map_append]
    show List.foldl runOp (http.emptyCache 10)
        (l.map (fun k => CacheOp.add k v) ++ [a].map (fun k => CacheOp.add k v)) = _
    rw [List.foldl_append]
    have hfold : List.foldl runOp (http.emptyCache 10) (l.map (fun k => CacheOp.add k v)) =
        ⟨10, (l.reverse.map (fun k => (k, v))).take 10⟩ := ih hnd2
    rw [hfold]
    show http.LRUCache.add ⟨10, (l.reverse.map (fun k => (k, v))).take 10⟩ a v = _
    have hfil : ((l.reverse.map (fun k => (k, v))).take 10).filter
        (fun q => q.1 != a) = (l.reverse.map (fun k => (k, v))).take 10 := by
      rw [List.filter_eq_self]
      intro q hq
      have hq2 : q ∈ l.reverse.map (fun k => (k, v)) := List.mem_of_mem_take hq
      obtain ⟨b, hb, rfl⟩ := List.mem_map.mp hq2
      have hbl : b ∈ l := List.mem_reverse.mp hb
      have : b ≠ a := fun he => hfresh (he ▸ hbl)
      simpa using this
    have hent := LRUCache_add_entries ⟨10, (l.reverse.map (fun k => (k, v))).take 10⟩ a v
    simp only at hent
    rw [hfil] at hent
    have hcap := LRUCache_add_capacity ⟨10, (l.reverse.map (fun k => (k, v))).take 10⟩ a v
    have hstep : ((a, v) :: (l.reverse.map (fun k => (k, v))).take 10).take 10 =
        ((l ++ [a]).reverse.map (fun k => (k, v))).take 10 := by
      rw [take_cons_take]
      congr 1
      simp
    cases hadd : http.LRUCache.add ⟨10, (l.reverse.map (fun k => (k, v))).take 10⟩ a v with
    | mk cap ent =>
      rw [hadd] at hent hcap
      simp only at hent hcap
      congr 1
      rw [hent, hstep]

/-- C4: over a capacity-10 LRUCache, the number of resident entries
never exceeds 10 for any sequence of fetch and add operations from the
empty cache; an add makes its key most-recently-used; a successful
fetch makes its key most-recently-used in the returned cache; an add of
a fresh key to a full cache keeps the new key in front and evicts
exactly the single least-recently-used key (the last one); and after
inserting 11 distinct keys the first-inserted key is absent while the
other 10 remain. -/
theorem C4_lru_invariants :
    (∀ ops : List CacheOp, (runOps (http.emptyCache 10) ops).entries.length ≤ 10) ∧
    (∀ (c : http.LRUCache) (k : String) (v : http.httpHeader), c.capacity = 10 →
      ((c.add k v).entries.map Prod.fst).head? = some k) ∧
    (∀ (c : http.LRUCache) (k : String) (e : http.httpHeader) (c2 : http.LRUCache),
      c.fetch k = some (e, c2) → (c2.entries.map Prod.fst).head? = some k) ∧
    (∀ (c : http.LRUCache) (k : String) (v : http.httpHeader), c.capacity = 10 →
      c.entries.length = 10 → k ∉ c.entries.map Prod.fst →
      (c.add k v).entries.map Prod.fst = k :: (c.entries.map Prod.fst).dropLast) ∧
    (∀ (ks : List String) (v : http.httpHeader), ks.Nodup → ks.length = 11 →
      ∀ k0, ks.head? = some k0 →
        k0 ∉ (runOps (http.emptyCache 10)
            (ks.map (fun k => CacheOp.add k v))).entries.map Prod.fst ∧
        ∀ k ∈ ks.tail, k ∈ (runOps (http.emptyCache 10)
            (ks.map (fun k => CacheOp.add k v))).entries.map Prod.fst) := by
  refine ⟨?_, ?_, ?_, ?_, ?_⟩
  · intro ops
    exact runOps_length ops (http.emptyCache 10) (by simp [http.emptyCache])
  · intro c k v hcap
    exact LRUCache_add_mru c k v hcap
  · intro c k e c2 hf
    exact (LRUCache_fetch_some c k e c2 hf).2.2
  · intro c k v hcap hlen hfresh
    exact LRUCache_add_evicts c k v hcap hlen hfresh
  · intro ks v hnd hlen k0 hk0
    obtain ⟨t, rfl⟩ : ∃ t, ks = k0 :: t := by
      cases ks with
      | nil => cases hk0
      | cons a t =>
        refine ⟨t, ?_⟩
        have : a = k0 := by simpa using hk0
        rw [this]
    have hlt : t.reverse.length = 10 := by
      simp only [List.length_reverse]
      simpa using hlen
    have hkeys : (runOps (http.emptyCache 10)
        ((k0 :: t).map (fun k => CacheOp.add k v))).entries.map Prod.fst = t.reverse := by
      rw [runOps_adds v (k0 :: t) hnd]
      show (((k0 :: t).reverse.map (fun k => (k, v))).take 10).map Prod.fst = t.reverse
      rw [List.map_take, List.map_map]
      have hid : (Prod.fst ∘ fun k => (k, v)) = (id : String → String) := rfl
      rw [hid, List.map_id, List.reverse_cons]
      exact List.take_left' hlt
    rw [hkeys]
    have hk0t : k0 ∉ t := (List.nodup_cons.mp hnd).1
    constructor
    · intro hm
      exact hk0t (List.mem_reverse.mp hm)
    · intro k hk
      exact List.mem_reverse.mpr hk

/-- Witness for C4 at concrete inputs: the empty operation sequence, an
add and a fetch on small caches, an eviction from a full cache of ten
entries, and the scenario of eleven distinct keys. -/
theorem C4_lru_invariants_witness :
    (runOps (http.emptyCache 10) []).entries.length ≤ 10 ∧
    (((http.emptyCache 10).add "k" ⟨"h", "/p", "", "", "", "b"⟩).entries.map
        Prod.fst).head? = some "k" ∧
    ((((⟨10, [("k", ⟨"h", "/p", "", "", "", "b"⟩)]⟩ : http.LRUCache).fetch "k").map
        (fun r => (r.2.entries.map Prod.fst).head?)) = some (some "k")) ∧
    ((⟨10, [("e0", ⟨"h", "/p", "", "", "", "b"⟩), ("e1", ⟨"h", "/p", "", "", "", "b"⟩),
        ("e2", ⟨"h", "/p", "", "", "", "b"⟩), ("e3", ⟨"h", "/p", "", "", "", "b"⟩),
        ("e4", ⟨"h", "/p", "", "", "", "b"⟩), ("e5", ⟨"h", "/p", "", "", "", "b"⟩),
        ("e6", ⟨"h", "/p", "", "", "", "b"⟩), ("e7", ⟨"h", "/p", "", "", "", "b"⟩),
        ("e8", ⟨"h", "/p", "", "", "", "b"⟩), ("e9", ⟨"h", "/p", "", "", "", "b"⟩)]⟩ :
        http.LRUCache).add "x" ⟨"h", "/p", "", "", "", "b"⟩).entries.map Prod.fst =
      "x" :: (((⟨10, [("e0", ⟨"h", "/p", "", "", "", "b"⟩),
        ("e1", ⟨"h", "/p", "", "", "", "b"⟩), ("e2", ⟨"h", "/p", "", "", "", "b"⟩),
        ("e3", ⟨"h", "/p", "", "", "", "b"⟩), ("e4", ⟨"h", "/p", "", "", "", "b"⟩),
        ("e5", ⟨"h", "/p", "", "", "", "b"⟩), ("e6", ⟨"h", "/p", "", "", "", "b"⟩),
        ("e7", ⟨"h", "/p", "", "", "", "b"⟩), ("e8", ⟨"h", "/p", "", "", "", "b"⟩),
        ("e9", ⟨"h", "/p", "", "", "", "b"⟩)]⟩ : http.LRUCache).entries.map
        Prod.fst).dropLast) ∧
    ("a" ∉ (runOps (http.emptyCache 10)
        ((["a", "b", "c", "d", "e", "f", "g", "h", "i", "j", "k"].map
          (fun k => CacheOp.add k ⟨"h", "/p", "", "", "", "b"⟩)))).entries.map Prod.fst ∧
      ∀ k ∈ ["a", "b", "c", "d", "e", "f", "g", "h", "i", "j", "k"].tail,
        k ∈ (runOps (http.emptyCache 10)
          ((["a", "b", "c", "d", "e", "f", "g", "h", "i", "j", "k"].map
            (fun k => CacheOp.add k ⟨"h", "/p", "", "", "", "b"⟩)))).entries.map Prod.fst) := by
  refine ⟨C4_lru_invariants.1 [], C4_lru_invariants.2.1 _ "k" _ rfl, ?_, ?_, ?_⟩
  · have h := C4_lru_invariants.2.2.1
      (⟨10, [("k", ⟨"h", "/p", "", "", "", "b"⟩)]⟩ : http.LRUCache) "k"
      ⟨"h", "/p", "", "", "", "b"⟩ ⟨10, [("k", ⟨"h", "/p", "", "", "", "b"⟩)]⟩ (by decide)
    rw [show ((⟨10, [("k", ⟨"h", "/p", "", "", "", "b"⟩)]⟩ : http.LRUCache).fetch "k") =
      some (⟨"h", "/p", "", "", "", "b"⟩,
        ⟨10, [("k", ⟨"h", "/p", "", "", "", "b"⟩)]⟩) from by decide]
    simp [h]
  · exact C4_lru_invariants.2.2.2.1 _ "x" _ rfl (by decide) (by decide)
  · exact C4_lru_invariants.2.2.2.2
      ["a", "b", "c", "d", "e", "f", "g", "h", "i", "j", "k"] _ (by decide) (by decide)
      "a" rfl


/- ------------------------------------------------------------------
C8: shape of the conditional request text.
------------------------------------------------------------------ -/

set_option maxRecDepth 4096

/-- C8 (counterexample): with a file path of 260 characters the
snprintf buffer of 256 bytes truncates the formatted request, and the
built string does not contain the If-Modified-Since value at all,
refuting the claim for arbitrary paths. -/
theorem C8_counterexample :
    ¬ ("If-Modified-Since: D".data <:+:
      (sendIfModifiedSinceRequestString "D"
        ⟨"h", String.mk (List.replicate 260 'a'), "", "", "", ""⟩).data) := by
  decide

/-- C8 (amended): whenever the formatted request fits the 256-byte
snprintf buffer (48 fixed characters plus path, host and date), the
built conditional request text is exactly the GET request line with the
host header line, then the blank-line terminator, then the
If-Modified-Since value, then another blank-line terminator - in
particular the If-Modified-Since value sits after the blank-line
terminator; longer inputs are truncated by the buffer. -/
theorem C8_request_shape :
    ∀ (date : String) (header : http.httpHeader),
    48 + header.filePath.length + header.hostName.length + date.length ≤ 255 →
    (sendIfModifiedSinceRequestString date header).data =
      "GET ".data ++ header.filePath.data ++ " HTTP/1.0\r\nHost: ".data ++
      header.hostName.data ++ "\r\n\r\n".data ++ "If-Modified-Since: ".data ++
      date.data ++ "\r\n\r\n".data := by
  intro date header h
  have hlen : ("GET " ++ header.filePath ++ " HTTP/1.0\r\nHost: " ++ header.hostName ++
      "\r\n\r\nIf-Modified-Since: " ++ date ++ "\r\n\r\n").length ≤ 255 := by
    simp only [String.length_append]
    have e1 : "GET ".length = 4 := rfl
    have e2 : " HTTP/1.0\r\nHost: ".length = 17 := rfl
    have e3 : "\r\n\r\nIf-Modified-Since: ".length = 23 := rfl
    have e4 : "\r\n\r\n".length = 4 := rfl
    rw [e1, e2, e3, e4]
    omega
  have hlen2 : ("GET " ++ header.filePath ++ " HTTP/1.0\r\nHost: " ++ header.hostName ++
      "\r\n\r\nIf-Modified-Since: " ++ date ++ "\r\n\r\n").data.length ≤ 255 := hlen
  show (("GET " ++ header.filePath ++ " HTTP/1.0\r\nHost: " ++ header.hostName ++
    "\r\n\r\nIf-Modified-Since: " ++ date ++ "\r\n\r\n").data.take 255) = _
  rw [List.take_of_length_le hlen2]
  simp [String.data_append, List.append_assoc]

/-- Witness for C8 (amended) at short concrete inputs. -/
theorem C8_request_shape_witness :
    (sendIfModifiedSinceRequestString "D" ⟨"h", "/p", "", "", "", ""⟩).data =
      "GET ".data ++ "/p".data ++ " HTTP/1.0\r\nHost: ".data ++ "h".data ++
      "\r\n\r\n".data ++ "If-Modified-Since: ".data ++ "D".data ++ "\r\n\r\n".data :=
  C8_request_shape "D" ⟨"h", "/p", "", "", "", ""⟩ (by decide)

/- ------------------------------------------------------------------
C9 and C10: properties of parseHTTPBody.
------------------------------------------------------------------ -/

lemma sepL_isPrefixOf_append (B : List Char) : sepL.isPrefixOf (sepL ++ B) = true :=
   List.isPrefixOf_iff_prefix.mpr (List.prefix_append sepL B)

lemma sep_not_prefix_head (H B : List Char) (h1 : ¬ sepL <:+: H)
    (h2 : ¬ (['\r', '\n'] <:+ H)) (hne : H ≠ []) :
    ¬ (sepL <+: (H ++ (sepL ++ B))) := by
  intro hp
  have hHpre : H <+: H ++ (sepL ++ B) := List.prefix_append H (sepL ++ B)
  by_cases h4 : 4 ≤ H.length
  · have htake := List.prefix_iff_eq_take.mp hp
    have h4s : sepL.length ≤ H.length := h4
    rw [List.take_append_of_le_length h4s] at htake
    exact h1 (List.IsPrefix.isInfix (htake ▸ List.take_prefix sepL.length H))
  · have hle : H.length ≤ sepL.length := by
      show H.length ≤ 4
      omega
    have hHsep : H <+: sepL := List.prefix_of_prefix_length_le hHpre hp hle
    have hH := List.prefix_iff_eq_take.mp hHsep
    have h1le : 1 ≤ H.length := by
      have := List.length_pos.mpr hne
      omega
    have hcase : H.length = 1 ∨ H.length = 2 ∨ H.length = 3 := by omega
    rcases hcase with hl | hl | hl
    · have hHv : H = ['\r'] := by rw [hH, hl]; rfl
      rw [hHv] at hp
      have hp2 := (List.cons_prefix_cons.mp hp).2
      have hp3 := (List.cons_prefix_cons.mp hp2).1
      exact absurd hp3 (by decide)
    · have hHv : H = ['\r', '\n'] := by rw [hH, hl]; rfl
      exact h2 (by rw [hHv])
    · have hHv : H = ['\r', '\n', '\r'] := by rw [hH, hl]; rfl
      rw [hHv] at hp
      have hp2 := (List.cons_prefix_cons.mp hp).2
      have hp3 := (List.cons_prefix_cons.mp hp2).2
      have hp4 := (List.cons_prefix_cons.mp hp3).2
      have hp5 := (List.cons_prefix_cons.mp hp4).1
      exact absurd hp5 (by decide)

lemma findSub_append (B : List Char) : ∀ H : List Char, ¬ (sepL <:+: H) →
    ¬ (['\r', '\n'] <:+ H) → findSub (H ++ (sepL ++ B)) = some H.length := by
  intro H
  induction H with
  | nil =>
    intro _ _
    show findSub (sepL ++ B) = some 0
    have hpre : sepL.isPrefixOf ('\r' :: ('\n' :: '\r' :: '\n' :: B)) = true :=
      sepL_isPrefixOf_append B
    show findSub ('\r' :: ('\n' :: '\r' :: '\n' :: B)) = some 0
    rw [findSub, if_pos hpre]
  | cons c t ih =>
    intro h1 h2
    have hnp := sep_not_prefix_head (c :: t) B h1 h2 (by simp)
    have hb : ¬ (sepL.isPrefixOf (c :: (t ++ (sepL ++ B))) = true) := fun hx =>
      hnp ( List.isPrefixOf_iff_prefix.mp hx)
    show findSub (c :: (t ++ (sepL ++ B))) = some (t.length + 1)
    rw [findSub, if_neg hb]
    have ih2 := ih (fun hi => h1 (List.infix_cons hi))
      (fun hs => h2 (hs.trans (List.suffix_cons c t)))
    rw [ih2]
    rfl

lemma findSub_some_prefix : ∀ (s : List Char) (p : Nat), findSub s = some p →
    sepL.isPrefixOf (s.drop p) = true := by
  intro s
  induction s with
  | nil => intro p h; cases h
  | cons c t ih =>
    intro p h
    rw [findSub] at h
    by_cases hc : sepL.isPrefixOf (c :: t) = true
    · rw [if_pos hc] at h
      cases h
      exact hc
    · rw [if_neg hc] at h
      cases hq : findSub t with
      | none => rw [hq] at h; cases h
      | some q =>
        rw [hq] at h
        cases h
        exact ih q hq

lemma findSub_le (s : List Char) (p : Nat) (h : findSub s = some p) : p + 4 ≤ s.length := by
  have hpre := findSub_some_prefix s p h
  have hle := List.IsPrefix.length_le ( List.isPrefixOf_iff_prefix.mp hpre)
  rw [List.length_drop] at hle
  have h4 : sepL.length = 4 := rfl
  rw [h4] at hle
  omega

lemma findSub_of_not_infix (s : List Char) (h : ¬ (sepL <:+: s)) : findSub s = none := by
  induction s with
  | nil => rfl
  | cons c t ih =>
    have hc : ¬ (sepL.isPrefixOf (c :: t) = true) := fun hx =>
      h (List.IsPrefix.isInfix ( List.isPrefixOf_iff_prefix.mp hx))
    rw [findSub, if_neg hc, ih (fun hi => h (List.infix_cons hi))]
    rfl

/-- C9 (counterexample): with the header block Host: x CR LF, which ends
with the line terminator, the concatenation header block, separator,
body contains an earlier separator occurrence, and parseHTTPBody
returns CR LF plus the body instead of the body. -/
theorem C9_counterexample :
    parseHTTPBody ("Host: x\r\n" ++ "\r\n\r\n" ++ "b") ≠ "b" := by
  decide

/-- C9 (amended): for every header block H that contains no blank-line
separator and does not end with CR LF, and every body B, parseHTTPBody
of H followed by the separator followed by B is exactly B; and every
input with no separator at all yields the empty result. -/
theorem C9_parseBody_roundtrip :
    (∀ H B : List Char, ¬ (sepL <:+: H) → ¬ (['\r', '\n'] <:+ H) →
      parseHTTPBodyL (H ++ (sepL ++ B)) = B) ∧
    (∀ s : List Char, ¬ (sepL <:+: s) → parseHTTPBodyL s = []) := by
  constructor
  · intro H B h1 h2
    have h4 : sepL.length = 4 := rfl
    have hsub : substrFrom (H ++ (sepL ++ B)) (H.length + 4) = some B := by
      unfold substrFrom
      rw [if_pos]
      · rw [← List.append_assoc]
        rw [List.drop_left' (by rw [List.length_append, h4])]
      · rw [List.length_append, List.length_append, h4]
        omega
    simp only [parseHTTPBodyL, findSub_append B H h1 h2, hsub]
  · intro s hs
    simp only [parseHTTPBodyL, findSub_of_not_infix s hs]

/-- Witness for C9 (amended) at concrete inputs. -/
theorem C9_parseBody_roundtrip_witness :
    parseHTTPBodyL ("Host: x".data ++ (sepL ++ "b".data)) = "b".data ∧
    parseHTTPBodyL "no separator at all".data = [] :=
  ⟨C9_parseBody_roundtrip.1 "Host: x".data "b".data (by decide) (by decide),
   C9_parseBody_roundtrip.2 "no separator at all".data (by decide)⟩

/-- C10 (counterexample): an input that ends exactly with the separator
but has an earlier separator occurrence yields a nonempty body, so
ending with the separator does not by itself give the empty result. -/
theorem C10_counterexample :
    (['\r', '\n', '\r', '\n'] <:+ "x\r\n\r\ny\r\n\r\n".data) ∧
    parseHTTPBody "x\r\n\r\ny\r\n\r\n" ≠ "" := by
  exact ⟨by decide, by decide⟩

/-- C10 (amended): parseHTTPBody returns normally on every input: the
position of the first separator plus 4 never exceeds the length, so the
substr call never throws and the out_of_range catch branch is
unreachable; and an input whose FIRST separator occurrence sits at its
very end yields the empty string, indistinguishable from an input with
no separator at all. -/
theorem C10_no_exception :
    (∀ (s : List Char) (p : Nat), findSub s = some p →
      p + 4 ≤ s.length ∧ substrFrom s (p + 4) = some (s.drop (p + 4))) ∧
    (∀ s : List Char, findSub s = some (s.length - 4) → parseHTTPBodyL s = []) := by
  constructor
  · intro s p h
    have hle := findSub_le s p h
    refine ⟨hle, ?_⟩
    unfold substrFrom
    rw [if_pos hle]
  · intro s h
    have hle := findSub_le s (s.length - 4) h
    have h4 : s.length - 4 + 4 = s.length := by omega
    have hsub : substrFrom s (s.length - 4 + 4) = some [] := by
      unfold substrFrom
      rw [h4, if_pos (le_refl _), List.drop_length]
    simp only [parseHTTPBodyL, h, hsub]

/-- Witness for C10 at concrete inputs: a separator in the middle and a
first separator at the very end. -/
theorem C10_no_exception_witness :
    (2 + 4 ≤ "ab\r\n\r\ncd".data.length ∧
      substrFrom "ab\r\n\r\ncd".data (2 + 4) = some ("ab\r\n\r\ncd".data.drop (2 + 4))) ∧
    parseHTTPBodyL "ab\r\n\r\n".data = [] :=
  ⟨C10_no_exception.1 "ab\r\n\r\ncd".data 2 (by decide),
   C10_no_exception.2 "ab\r\n\r\n".data (by decide)⟩
